import Mathlib

/-!
Verification of the training-orchestration core of the neurodiffeq `ode`
module (`neurodiffeq/ode.py`): the `solve` / `solve_system` entry points,
the epoch/minibatch training loop, the loss and metric computation, and the
`Solution` snapshot class.

The shallow embedding below translates the Python source into Lean:

* torch tensors become a `Tensor` structure holding a shape and a flat list
  of rational data (floats are modelled by rationals; no claim under
  verification depends on floating-point rounding, NaN or infinity);
* the external collaborators that the source imports (networks, conditions,
  point generators, the optimizer) are kept abstract, exactly as the spec
  declares them out of scope: a network is an opaque value of a type
  parameter, a condition carries its `enforce` behaviour as a function, a
  generator carries its `size` and an epoch-indexed stream of samples, and
  the effect of `zero_grad`/`backward`/`step` on the training state is an
  abstract state-update function supplied by the environment;
* the in-place mutation performed by Python (optimizer steps, history
  appends, best-checkpoint replacement) becomes explicit state passing
  through the epoch loop;
* `raise RuntimeError` becomes an `Except SolveError` result.
-/

/-- A torch tensor: a shape together with flat (row-major) data.
For the tensors manipulated by this module only the shape and the element
list are observable. -/
structure Tensor where
  shape : List Nat
  data : List ℚ
deriving DecidableEq, Repr, Inhabited

namespace Tensor

/-- Number of elements, torch `numel`. -/
def numel (t : Tensor) : Nat := t.data.length

/-- torch `reshape(-1, 1)`: flatten into a single column; the wildcard
dimension is inferred as the element count. -/
def reshapeCol (t : Tensor) : Tensor := ⟨[t.numel, 1], t.data⟩

/-- torch `reshape(s)`: succeeds exactly when the element count matches the
product of the requested shape. -/
def reshape (t : Tensor) (s : List Nat) : Option Tensor :=
  if s.prod = t.numel then some ⟨s, t.data⟩ else none

/-- `torch.zeros_like(t)`: a tensor of zeros with the shape of `t`. -/
def zeros_like (t : Tensor) : Tensor := ⟨t.shape, List.replicate t.numel 0⟩

/-- Row selection `t[idx]` on a column tensor `(N, 1)`, as used for
`train_examples_t[batch_idx]`. The source only indexes in range; an
out-of-range index yields a zero filler here. -/
def selectRows (t : Tensor) (idx : List Nat) : Tensor :=
  ⟨[idx.length, 1], idx.map (fun i => t.data.getD i 0)⟩

end Tensor

/-- An initial/boundary condition, `neurodiffeq.conditions.BaseCondition`.
The enforcement mathematics is an external collaborator, so the transform is
carried as an abstract function of the output-slot tag, the network and the
evaluation points. `ν` is the (opaque) type of a network. -/
structure Condition (ν : Type) where
  impose_on : Option Nat
  enforce_fn : Option Nat → ν → Tensor → Tensor

namespace Condition

/-- `con.enforce(net, ts)`. -/
def enforce (c : Condition ν) (net : ν) (ts : Tensor) : Tensor :=
  c.enforce_fn c.impose_on net ts

/-- `con.set_impose_on(ith)`: tag the condition with its output slot. -/
def set_impose_on (c : Condition ν) (ith : Nat) : Condition ν :=
  { c with impose_on := some ith }

end Condition

/-- `_trial_solution(single_net, nets, ts, conditions)`: the constrained
dependent-variable values, one per condition. A present network object is
always truthy in Python, so `if single_net` is `Option.isSome`; when it is
absent the source iterates `zip(conditions, nets)`. -/
def _trial_solution (single_net : Option ν) (nets : Option (List ν))
    (ts : Tensor) (conditions : List (Condition ν)) : List Tensor :=
  match single_net with
  | some n => conditions.map (fun con => con.enforce n ts)
  | none => (conditions.zip (nets.getD [])).map (fun p => p.1.enforce p.2 ts)

/-- `calculate_loss(ts, net, nets, ode_system, conditions, criterion,
additional_loss_term)`: evaluate the system on the trial solution, reduce
each residual with `criterion(Fut, torch.zeros_like(ts))`, sum, and add the
optional extra penalty term. Note the zero target is shaped like the batch
`ts`, not like the residual. -/
def calculate_loss (ts : Tensor) (net : Option ν) (nets : Option (List ν))
    (ode_system : List Tensor → Tensor → List Tensor)
    (conditions : List (Condition ν))
    (criterion : Tensor → Tensor → ℚ)
    (additional_loss_term : Option (List Tensor → Tensor → ℚ)) : ℚ :=
  let us := _trial_solution net nets ts conditions
  let Futs := ode_system us ts
  let loss := (Futs.map (fun Fut => criterion Fut (Tensor.zeros_like ts))).sum
  match additional_loss_term with
  | some f => loss + f us ts
  | none => loss

/-- `calculate_metrics(ts, net, nets, conditions, metrics)`: apply each named
metric function to the trial solution and the batch. -/
def calculate_metrics (ts : Tensor) (net : Option ν) (nets : Option (List ν))
    (conditions : List (Condition ν))
    (metrics : List (String × (List Tensor → Tensor → ℚ))) :
    List (String × ℚ) :=
  let us := _trial_solution net nets ts conditions
  metrics.map (fun m => (m.1, m.2 us ts))

/-- The batch bounds visited by the `while batch_start < n_examples_train`
loop of the inner `train` subroutine: starting from `start`, each iteration
takes the slice `[batch_start, batch_end)` with `batch_end` clamped to `N`,
then advances both bounds by `B`. The source loops forever when the batch
size is zero; here the recursion stops, and every claim about batching
assumes a positive batch size. -/
def batchSlices (N B start : Nat) : List (Nat × Nat) :=
  if _h : start < N ∧ 0 < B then
    (start, min (start + B) N) :: batchSlices N B (start + B)
  else
    []
termination_by N - start
decreasing_by
  omega

/-- The index batches `idx[batch_start:batch_end]` traversed in one epoch of
the inner `train` subroutine, in order. -/
def trainBatchIndexLists (idx : List Nat) (N B : Nat) : List (List Nat) :=
  (batchSlices N B 0).map (fun p => (idx.drop p.1).take (p.2 - p.1))

/-- The default criterion `nn.MSELoss()`: mean of squared differences.
It is the default value only; no claim depends on its arithmetic. -/
def MSELoss (a b : Tensor) : ℚ :=
  ((a.data.zip b.data).map (fun p => (p.1 - p.2) ^ 2)).sum / a.numel

/-- A point generator (`neurodiffeq.generators.Generator1D`): its `size`
attribute and its `get_examples()` stream. The generator may re-sample
internally on every call; the source calls it exactly once per epoch, so the
stream is indexed by the epoch number. -/
structure Gen where
  size : Nat
  get_examples : Nat → Tensor

/-- The monitor collaborator: only its inspection interval is observable to
the loop; `monitor.check` renders plots and has no effect on training. -/
structure Monitor where
  check_every : Nat

/-- The mutable training state threaded through the loop: the (optional)
shared network, the (optional) per-variable networks, and the optimizer
state, all mutated in place by the optimizer step in the source. `Ω` is the
opaque optimizer type. -/
structure TrainState (ν Ω : Type) where
  single_net : Option ν
  nets : Option (List ν)
  opt : Ω

/-- Keys of the `history` dictionary. The source uses the strings
"train_loss", "valid_loss", "train__" ++ name and "valid__" ++ name; that
prefixing scheme is injective (the two loss keys differ from every prefixed
key at character 6), so the keys are modelled as a tagged sum. -/
inductive HKey
  | train_loss
  | valid_loss
  | train_metric (name : String)
  | valid_metric (name : String)
deriving DecidableEq, Repr

/-- The `history` dictionary: an insertion-ordered association from key to
the append-only list of per-epoch scalars. -/
abbrev History := List (HKey × List ℚ)

/-- `history[k].append(v)`. Appending to an absent key is a no-op here; the
source only appends to keys created up front. -/
def History.appendAt (h : History) (k : HKey) (v : ℚ) : History :=
  h.map (fun e => if e.1 = k then (e.1, e.2 ++ [v]) else e)

/-- `history[k]`. -/
def History.lookup (h : History) (k : HKey) : Option (List ℚ) :=
  List.lookup k h

/-- The `history` dictionary as initialized before the epoch loop: empty
series for the two loss keys and for both per-metric keys, in insertion
order. -/
def initHistory (names : List String) : History :=
  [(HKey.train_loss, []), (HKey.valid_loss, [])] ++
    (names.map (fun n =>
      [(HKey.train_metric n, ([] : List ℚ)), (HKey.valid_metric n, [])])).flatten

/-- `class Solution`: the post-construction-immutable snapshot. Its
initializer deep-copies `single_net`, `nets` and `conditions`; in this
value-level model the deep copy is the value snapshot itself (the heap-level
model below accounts for Python aliasing explicitly). -/
structure Solution (ν : Type) where
  single_net : Option ν
  nets : Option (List ν)
  conditions : List (Condition ν)

/-- The errors `solve_system` can raise during configuration. -/
inductive SolveError
  | netConflict
  | missingBounds
deriving DecidableEq, Repr

/-- The external collaborators `solve_system` constructs or consults, kept
abstract exactly where the source imports them: the default `FCNN` network
(keyed by its output-unit count `len(conditions)`), the two default
`Generator1D` instances, the default `Adam` optimizer constructors, the
per-epoch random permutation drawn by `np.random.permutation`, and the
combined effect of one `zero_grad`/`backward`/`step` on the training state.
The batch loss passed to `backward` is itself a function of the state and
the batch, so `optimizer_update` receives exactly those. -/
structure Collab (ν Ω : Type) where
  defaultNet : Nat → ν
  defaultTrainGen : ℚ → ℚ → Gen
  defaultValidGen : ℚ → ℚ → Gen
  adamSingle : ν → Ω
  adamMulti : List ν → Ω
  rand : Nat → Nat → List Nat
  optimizer_update : TrainState ν Ω → Tensor → TrainState ν Ω

/-- The configuration `solve_system` has resolved by the time it enters the
epoch loop. -/
structure Resolved (ν Ω : Type) where
  ode_system : List Tensor → Tensor → List Tensor
  conditions : List (Condition ν)
  st0 : TrainState ν Ω
  train_generator : Gen
  valid_generator : Gen
  shuffle : Bool
  criterion : Tensor → Tensor → ℚ
  additional_loss_term : Option (List Tensor → Tensor → ℚ)
  metrics : List (String × (List Tensor → Tensor → ℚ))
  batch_size : Nat
  max_epochs : Nat
  monitor : Option Monitor
  return_internal : Bool
  return_best : Bool
  rand : Nat → Nat → List Nat
  optimizer_update : TrainState ν Ω → Tensor → TrainState ν Ω

/-- The inner `train` subroutine: draw the training points of this epoch, build
the traversal order (a random permutation when shuffling, else
`np.arange`), run one optimizer step per index batch, then recompute loss
and metrics once over the whole training set. -/
def runTrain (R : Resolved ν Ω) (epoch : Nat) (st : TrainState ν Ω) :
    TrainState ν Ω × ℚ × List (String × ℚ) :=
  let train_examples_t := (R.train_generator.get_examples epoch).reshapeCol
  let n_examples_train := R.train_generator.size
  let idx := if R.shuffle then R.rand epoch n_examples_train
             else List.range n_examples_train
  let st' := (trainBatchIndexLists idx n_examples_train R.batch_size).foldl
    (fun s batch_idx =>
      let ts := train_examples_t.selectRows batch_idx
      R.optimizer_update s ts) st
  let train_loss_epoch := calculate_loss train_examples_t st'.single_net
    st'.nets R.ode_system R.conditions R.criterion R.additional_loss_term
  let train_metrics_epoch := calculate_metrics train_examples_t
    st'.single_net st'.nets R.conditions R.metrics
  (st', train_loss_epoch, train_metrics_epoch)

/-- The inner `valid` subroutine: evaluate loss and metrics once over the
whole validation set; no gradient step, the state is read-only. -/
def runValid (R : Resolved ν Ω) (epoch : Nat) (st : TrainState ν Ω) :
    ℚ × List (String × ℚ) :=
  let valid_examples_t := (R.valid_generator.get_examples epoch).reshapeCol
  let valid_loss_epoch := calculate_loss valid_examples_t st.single_net
    st.nets R.ode_system R.conditions R.criterion R.additional_loss_term
  let valid_metrics_epoch := calculate_metrics valid_examples_t
    st.single_net st.nets R.conditions R.metrics
  (valid_loss_epoch, valid_metrics_epoch)

/-- The loop-carried state of `solve_system`: the training state, the
history, and the best-checkpoint pair `valid_loss_epoch_min` /
`solution_min`. The source initializes the best-checkpoint pair only when
`return_best` is set; carrying it unconditionally is observationally equal,
since the source reads it only under `return_best`. `np.inf` becomes `⊤` of
`WithTop ℚ`. -/
structure LoopState (ν Ω : Type) where
  st : TrainState ν Ω
  history : History
  valid_loss_epoch_min : WithTop ℚ
  solution_min : Option (Solution ν)

/-- Append every train-side metric value of one epoch to the history. -/
def appendTrainMetrics (h : History) (ms : List (String × ℚ)) : History :=
  ms.foldl (fun hh m => hh.appendAt (HKey.train_metric m.1) m.2) h

/-- Append every valid-side metric value of one epoch to the history. -/
def appendValidMetrics (h : History) (ms : List (String × ℚ)) : History :=
  ms.foldl (fun hh m => hh.appendAt (HKey.valid_metric m.1) m.2) h

/-- One iteration of `for epoch in range(max_epochs)`: training pass,
history appends, validation pass, history appends, monitor check (a no-op
in this model: `monitor.check` only renders), best-checkpoint update. -/
def runEpoch (R : Resolved ν Ω) (epoch : Nat) (s : LoopState ν Ω) :
    LoopState ν Ω :=
  let tr := runTrain R epoch s.st
  let st' := tr.1
  let train_loss_epoch := tr.2.1
  let h1 := (s.history.appendAt HKey.train_loss train_loss_epoch)
  let h2 := appendTrainMetrics h1 tr.2.2
  let vr := runValid R epoch st'
  let valid_loss_epoch := vr.1
  let h3 := h2.appendAt HKey.valid_loss valid_loss_epoch
  let h4 := appendValidMetrics h3 vr.2
  if R.return_best = true ∧
      ((valid_loss_epoch : WithTop ℚ) < s.valid_loss_epoch_min) then
    ⟨st', h4, (valid_loss_epoch : WithTop ℚ),
      some ⟨st'.single_net, st'.nets, R.conditions⟩⟩
  else
    ⟨st', h4, s.valid_loss_epoch_min, s.solution_min⟩

/-- The loop state before the first epoch. -/
def initLoopState (R : Resolved ν Ω) : LoopState ν Ω :=
  ⟨R.st0, initHistory (R.metrics.map Prod.fst), ⊤, none⟩

/-- The loop state after the first `n` epochs. -/
def runEpochs (R : Resolved ν Ω) : Nat → LoopState ν Ω
  | 0 => initLoopState R
  | n + 1 => runEpoch R n (runEpochs R n)

/-- The `internal` dictionary returned under `return_internal`. -/
structure Internal (ν Ω : Type) where
  single_net : Option ν
  nets : Option (List ν)
  conditions : List (Condition ν)
  train_generator : Gen
  valid_generator : Gen
  optimizer : Ω
  criterion : Tensor → Tensor → ℚ

/-- What `solve_system` returns on success. `solution` is an `Option`
because the source returns the Python value `None` when best-checkpoint
tracking never fired. -/
structure SolveResult (ν Ω : Type) where
  solution : Option (Solution ν)
  history : History
  internal : Option (Internal ν Ω)

/-- The tail of `solve_system` after configuration: run the epoch loop,
select the final or best-checkpoint solution, and package the result. -/
def finishRun (R : Resolved ν Ω) : SolveResult ν Ω :=
  let final := runEpochs R R.max_epochs
  let solution :=
    if R.return_best then final.solution_min
    else some ⟨final.st.single_net, final.st.nets, R.conditions⟩
  let internal :=
    if R.return_internal then
      some ⟨final.st.single_net, final.st.nets, R.conditions,
        R.train_generator, R.valid_generator, final.st.opt, R.criterion⟩
    else none
  ⟨solution, final.history, internal⟩

/-- The keyword surface of `solve_system`, with the defaults of the source. -/
structure SolveSystemArgs (ν Ω : Type) where
  ode_system : List Tensor → Tensor → List Tensor
  conditions : List (Condition ν)
  t_min : Option ℚ
  t_max : Option ℚ
  single_net : Option ν := none
  nets : Option (List ν) := none
  train_generator : Option Gen := none
  shuffle : Bool := true
  valid_generator : Option Gen := none
  optimizer : Option Ω := none
  criterion : Option (Tensor → Tensor → ℚ) := none
  additional_loss_term : Option (List Tensor → Tensor → ℚ) := none
  metrics : Option (List (String × (List Tensor → Tensor → ℚ))) := none
  batch_size : Nat := 16
  max_epochs : Nat := 1000
  monitor : Option Monitor := none
  return_internal : Bool := false
  return_best : Bool := false

/-- Python truthiness of an optional network / generator / optimizer object
(such objects are truthy whenever present). -/
def truthyOpt (o : Option α) : Bool := o.isSome

/-- Python truthiness of an optional list: `None` and `[]` are falsy. -/
def truthyList (o : Option (List α)) : Bool :=
  match o with
  | none => false
  | some l => !l.isEmpty

/-- The configuration phase of `solve_system`, in source order: the
net/nets conflict check, the default shared network, the output-slot
tagging, the two generator checks with their defaults, the default
optimizer, criterion, and metrics. -/
def resolveConfig (C : Collab ν Ω) (a : SolveSystemArgs ν Ω) :
    Except SolveError (Resolved ν Ω) :=
  if truthyOpt a.single_net && truthyList a.nets then
    Except.error SolveError.netConflict
  else
    let single_net :=
      if !truthyOpt a.single_net && !truthyList a.nets then
        some (C.defaultNet a.conditions.length)
      else a.single_net
    let conditions :=
      if truthyOpt single_net then
        a.conditions.mapIdx (fun ith con => con.set_impose_on ith)
      else a.conditions
    let tg : Except SolveError Gen :=
      match a.train_generator with
      | some g => Except.ok g
      | none =>
        match a.t_min, a.t_max with
        | some lo, some hi => Except.ok (C.defaultTrainGen lo hi)
        | _, _ => Except.error SolveError.missingBounds
    let vg : Except SolveError Gen :=
      match a.valid_generator with
      | some g => Except.ok g
      | none =>
        match a.t_min, a.t_max with
        | some lo, some hi => Except.ok (C.defaultValidGen lo hi)
        | _, _ => Except.error SolveError.missingBounds
    match tg, vg with
    | Except.error e, _ => Except.error e
    | Except.ok _, Except.error e => Except.error e
    | Except.ok train_generator, Except.ok valid_generator =>
      let optimizer : Ω :=
        match a.optimizer with
        | some o => o
        | none =>
          match single_net with
          | some n => C.adamSingle n
          | none => C.adamMulti (a.nets.getD [])
      let criterion := a.criterion.getD MSELoss
      let metrics := a.metrics.getD []
      Except.ok
        { ode_system := a.ode_system
          conditions := conditions
          st0 := ⟨single_net, a.nets, optimizer⟩
          train_generator := train_generator
          valid_generator := valid_generator
          shuffle := a.shuffle
          criterion := criterion
          additional_loss_term := a.additional_loss_term
          metrics := metrics
          batch_size := a.batch_size
          max_epochs := a.max_epochs
          monitor := a.monitor
          return_internal := a.return_internal
          return_best := a.return_best
          rand := C.rand
          optimizer_update := C.optimizer_update }

/-- `solve_system`: configuration phase, then the epoch loop and result
packaging. -/
def solve_system (C : Collab ν Ω) (a : SolveSystemArgs ν Ω) :
    Except SolveError (SolveResult ν Ω) :=
  (resolveConfig C a).map finishRun

/-- The keyword surface of `solve`, with the defaults of the source. -/
structure SolveArgs (ν Ω : Type) where
  ode : Tensor → Tensor → Tensor
  condition : Condition ν
  t_min : Option ℚ := none
  t_max : Option ℚ := none
  net : Option ν := none
  train_generator : Option Gen := none
  shuffle : Bool := true
  valid_generator : Option Gen := none
  optimizer : Option Ω := none
  criterion : Option (Tensor → Tensor → ℚ) := none
  additional_loss_term : Option (List Tensor → Tensor → ℚ) := none
  metrics : Option (List (String × (List Tensor → Tensor → ℚ))) := none
  batch_size : Nat := 16
  max_epochs : Nat := 1000
  monitor : Option Monitor := none
  return_internal : Bool := false
  return_best : Bool := false

/-- Wrap a single-equation right-hand side as a one-equation system, the
lambda of the source, `lambda x, t: [ode(x, t)]`. The wrapper is only ever applied to
the singleton trial-solution list produced by `conditions = [condition]`,
so the head is the sole dependent variable. -/
def wrapOde (ode : Tensor → Tensor → Tensor) :
    List Tensor → Tensor → List Tensor :=
  fun xs t => [ode xs.headI t]

/-- `solve`: delegate to `solve_system` with a one-equation system, a
singleton condition list, and `nets = None if not net else [net]` (a torch
module is always truthy). -/
def solve (C : Collab ν Ω) (a : SolveArgs ν Ω) :
    Except SolveError (SolveResult ν Ω) :=
  let nets : Option (List ν) :=
    match a.net with
    | none => none
    | some n => some [n]
  solve_system C
    { ode_system := wrapOde a.ode
      conditions := [a.condition]
      t_min := a.t_min
      t_max := a.t_max
      nets := nets
      train_generator := a.train_generator
      shuffle := a.shuffle
      valid_generator := a.valid_generator
      optimizer := a.optimizer
      criterion := a.criterion
      additional_loss_term := a.additional_loss_term
      metrics := a.metrics
      batch_size := a.batch_size
      max_epochs := a.max_epochs
      monitor := a.monitor
      return_internal := a.return_internal
      return_best := a.return_best }

namespace Solution

/-- `Solution.__call__(ts, as_type)`, up to the final single/multiple
unwrapping: remember the input shape, flatten to a column, reject an
unknown `as_type` (`ValueError`), compute the trial solution against the
owned copies, and reshape every output back to the original input shape.
The `as_type = np` branch detaches and converts each tensor; element-wise
it is the identity in this model. A failed reshape (an output whose element
count does not match the input shape) is a torch runtime error, `none`
here. -/
def callList (sol : Solution ν) (ts : Tensor) (as_type : String) :
    Option (List Tensor) :=
  let original_shape := ts.shape
  let ts' := ts.reshapeCol
  if as_type ≠ "tf" ∧ as_type ≠ "np" then none
  else
    let us := _trial_solution sol.single_net sol.nets ts' sol.conditions
    us.mapM (fun u => u.reshape original_shape)

/-- The full `Solution.__call__` return value: the ordered sequence of
per-variable outputs when there is more than one condition, else the single
output directly (in the source, `us if len(self.conditions) > 1 else us[0]`). -/
def call (sol : Solution ν) (ts : Tensor) (as_type : String) :
    Option (Tensor ⊕ List Tensor) :=
  (sol.callList ts as_type).map
    (fun us => if sol.conditions.length > 1 then Sum.inr us else Sum.inl us.headI)

end Solution

/-- A Python object heap for one object type: cells addressed by index.
This is the explicit-aliasing counterpart of the value-level `Solution`
model: training mutates network (and condition) objects in place, so those
objects live in a heap and `deepcopy` allocates fresh cells. -/
structure Heap (α : Type) where
  cells : List α

namespace Heap

/-- Number of allocated cells. -/
def size (h : Heap α) : Nat := h.cells.length

/-- Dereference an address. -/
def get (h : Heap α) (a : Nat) : Option α := h.cells[a]?

/-- Overwrite the object at an address in place (what an optimizer step
does to a live network). -/
def set (h : Heap α) (a : Nat) (v : α) : Heap α := ⟨h.cells.set a v⟩

/-- Allocate a fresh cell; the new address is the old size. -/
def alloc (h : Heap α) (v : α) : Heap α × Nat := (⟨h.cells ++ [v]⟩, h.cells.length)

/-- `deepcopy` of one referenced object: read it and allocate an
independent copy. -/
def copyOne (h : Heap α) (a : Nat) : Option (Heap α × Nat) :=
  (h.get a).map (fun v => h.alloc v)

/-- `deepcopy` of a list of references: fresh cells for every element, in
order. -/
def copyList (h : Heap α) : List Nat → Option (Heap α × List Nat)
  | [] => some (h, [])
  | a :: rest =>
    match h.get a with
    | none => none
    | some v =>
      match (h.alloc v).1.copyList rest with
      | none => none
      | some q => some (q.1, (h.alloc v).2 :: q.2)

/-- `deepcopy(None) is None`; otherwise copy the referenced object. -/
def copyOpt (h : Heap α) : Option Nat → Option (Heap α × Option Nat)
  | none => some (h, none)
  | some a => (h.copyOne a).map (fun p => (p.1, some p.2))

/-- `deepcopy` of an optional list of references. -/
def copyOptList (h : Heap α) : Option (List Nat) → Option (Heap α × Option (List Nat))
  | none => some (h, none)
  | some l => (h.copyList l).map (fun p => (p.1, some p.2))

end Heap

/-- A `Solution` whose owned copies are heap references: the direct image
of the Python object graph after `Solution.__init__`. -/
structure SolutionRef where
  single_net : Option Nat
  nets : Option (List Nat)
  conditions : List Nat

/-- `Solution.__init__(single_net, nets, conditions)` at the heap level, in
source order: deep-copy the single network, then the network list, then the
conditions; the constructed object holds only the fresh addresses. `none`
models a dangling input reference, which cannot occur in the source. -/
def Solution.initRef (hν : Heap ν) (hc : Heap (Condition ν))
    (single_net : Option Nat) (nets : Option (List Nat)) (conditions : List Nat) :
    Option (Heap ν × Heap (Condition ν) × SolutionRef) :=
  match hν.copyOpt single_net with
  | none => none
  | some p1 =>
    match p1.1.copyOptList nets with
    | none => none
    | some p2 =>
      match hc.copyList conditions with
      | none => none
      | some p3 => some (p2.1, p3.1, ⟨p1.2, p2.2, p3.2⟩)

namespace SolutionRef

/-- The single-network reference of a snapshot, dereferenced: `none` when
the snapshot holds no single network, otherwise the current heap value. -/
def fetchSingle (hν : Heap ν) (sol : SolutionRef) : Option (Option ν) :=
  match sol.single_net with
  | none => some none
  | some a => (hν.get a).map some

/-- The network-list reference of a snapshot, dereferenced. -/
def fetchNets (hν : Heap ν) (sol : SolutionRef) : Option (Option (List ν)) :=
  match sol.nets with
  | none => some none
  | some l => (l.mapM hν.get).map some

/-- Dereference every address a `SolutionRef` owns, yielding the value-level
`Solution` it currently denotes. -/
def fetch (hν : Heap ν) (hc : Heap (Condition ν)) (sol : SolutionRef) :
    Option (Solution ν) :=
  match fetchSingle hν sol with
  | none => none
  | some sn =>
    match fetchNets hν sol with
    | none => none
    | some nv =>
      match sol.conditions.mapM hc.get with
      | none => none
      | some cv => some ⟨sn, nv, cv⟩

/-- Evaluate a heap-level `Solution` on a batch: dereference the owned
copies, then run `Solution.__call__`. -/
def call (hν : Heap ν) (hc : Heap (Condition ν)) (sol : SolutionRef)
    (ts : Tensor) (as_type : String) : Option (List Tensor) :=
  match sol.fetch hν hc with
  | none => none
  | some s => s.callList ts as_type

end SolutionRef

/-! ## Alternative loss formulations (claim C5) -/

/-- The loss reduction exactly as claim C5 words it: each residual is
compared by the criterion against a zero vector whose shape matches that
residual. This differs from the source, which always uses
`torch.zeros_like(ts)`. -/
def calculate_loss_residual_shaped_zero (ts : Tensor) (net : Option ν)
    (nets : Option (List ν))
    (ode_system : List Tensor → Tensor → List Tensor)
    (conditions : List (Condition ν))
    (criterion : Tensor → Tensor → ℚ)
    (additional_loss_term : Option (List Tensor → Tensor → ℚ)) : ℚ :=
  let us := _trial_solution net nets ts conditions
  let residuals := ode_system us ts
  let reduced := residuals.map
    (fun Fut => criterion Fut (Tensor.zeros_like Fut))
  reduced.sum +
    (match additional_loss_term with
     | some f => f us ts
     | none => 0)

/-- The loss reduction per the amended claim C5: one scalar per equation,
each the criterion applied to the residual against a zero vector shaped
like the points batch `ts`; summed across equations; plus the extra
penalty term (invoked with the same arguments as the equation system) when
configured. -/
def calculate_loss_batch_shaped_zero (ts : Tensor) (net : Option ν)
    (nets : Option (List ν))
    (ode_system : List Tensor → Tensor → List Tensor)
    (conditions : List (Condition ν))
    (criterion : Tensor → Tensor → ℚ)
    (additional_loss_term : Option (List Tensor → Tensor → ℚ)) : ℚ :=
  let us := _trial_solution net nets ts conditions
  let residuals := ode_system us ts
  let reduced := residuals.map
    (fun Fut => criterion Fut ⟨ts.shape, List.replicate ts.data.length 0⟩)
  reduced.sum +
    (match additional_loss_term with
     | some f => f us ts
     | none => 0)

/-! ## Concrete instances used to exhibit the theorems on closed inputs -/

/-- A concrete collaborator pack over trivial network and optimizer
types. -/
def unitCollab : Collab Unit Unit where
  defaultNet := fun _ => ()
  defaultTrainGen := fun _ _ => { size := 2, get_examples := fun _ => ⟨[2], [0, 1]⟩ }
  defaultValidGen := fun _ _ => { size := 2, get_examples := fun _ => ⟨[2], [0, 1]⟩ }
  adamSingle := fun _ => ()
  adamMulti := fun _ => ()
  rand := fun _ n => List.range n
  optimizer_update := fun s _ => s

/-- A condition whose enforcement returns the points unchanged. -/
def unitCondition : Condition Unit := ⟨none, fun _ _ ts => ts⟩

/-- A concrete two-point generator. -/
def cgen : Gen := { size := 2, get_examples := fun _ => ⟨[2], [0, 1]⟩ }

/-- A filler `Resolved` record (never reached on the inputs below). -/
def dummyResolved : Resolved Unit Unit where
  ode_system := fun _ _ => []
  conditions := []
  st0 := ⟨none, none, ()⟩
  train_generator := ⟨0, fun _ => ⟨[], []⟩⟩
  valid_generator := ⟨0, fun _ => ⟨[], []⟩⟩
  shuffle := true
  criterion := fun _ _ => 0
  additional_loss_term := none
  metrics := []
  batch_size := 16
  max_epochs := 0
  monitor := none
  return_internal := false
  return_best := false
  rand := fun _ n => List.range n
  optimizer_update := fun s _ => s

/-- Concrete `solve_system` arguments: one equation whose residual is the
first trial value, two training points, two epochs. -/
def cargs1 : SolveSystemArgs Unit Unit :=
  { ode_system := fun us _ => us
    conditions := [unitCondition]
    t_min := some 0
    t_max := some 1
    criterion := some (fun a _ => a.data.sum)
    max_epochs := 2 }

/-- The configuration `cargs1` resolves to. -/
def c1R : Resolved Unit Unit :=
  (resolveConfig unitCollab cargs1).toOption.getD dummyResolved

/-- Concrete arguments with best-checkpoint tracking over three epochs. -/
def cargs4 : SolveSystemArgs Unit Unit :=
  { ode_system := fun us _ => us
    conditions := [unitCondition]
    t_min := some 0
    t_max := some 1
    criterion := some (fun a _ => a.data.sum)
    max_epochs := 3
    return_best := true }

/-- The configuration `cargs4` resolves to. -/
def c4R : Resolved Unit Unit :=
  (resolveConfig unitCollab cargs4).toOption.getD dummyResolved

/-- Concrete arguments with best-checkpoint tracking and zero epochs. -/
def cargs9 : SolveSystemArgs Unit Unit :=
  { ode_system := fun us _ => us
    conditions := [unitCondition]
    t_min := some 0
    t_max := some 1
    criterion := some (fun a _ => a.data.sum)
    max_epochs := 0
    return_best := true }

/-- The configuration `cargs9` resolves to. -/
def c9R : Resolved Unit Unit :=
  (resolveConfig unitCollab cargs9).toOption.getD dummyResolved

/-- Concrete arguments supplying both a single network and a network
list. -/
def cargs6 : SolveSystemArgs Unit Unit :=
  { ode_system := fun us _ => us
    conditions := [unitCondition]
    t_min := some 0
    t_max := some 1
    single_net := some ()
    nets := some [()] }

/-- Concrete arguments supplying a training generator but no validation
generator and no lower domain bound. -/
def cargs7 : SolveSystemArgs Unit Unit :=
  { ode_system := fun us _ => us
    conditions := [unitCondition]
    t_min := none
    t_max := some 1
    train_generator := some cgen }

/-- A concrete snapshot with one identity condition. -/
def csol8 : Solution Unit := ⟨some (), none, [unitCondition]⟩

/-- A condition over rational-weight networks: enforcement scales the
points by the network weight. -/
def scaleCondition : Condition ℚ :=
  ⟨none, fun _ w ts => ⟨ts.shape, ts.data.map (fun x => w * x)⟩⟩

/-- A network heap holding one live network (weight 3). -/
def c3heapNu0 : Heap ℚ := ⟨[3]⟩

/-- A condition heap holding one live condition. -/
def c3heapC0 : Heap (Condition ℚ) := ⟨[scaleCondition]⟩

/-- The `Solution.__init__` run used as the concrete isolation scenario. -/
def c3init : Option (Heap ℚ × Heap (Condition ℚ) × SolutionRef) :=
  Solution.initRef c3heapNu0 c3heapC0 (some 0) none [0]

/-- The network heap right after the snapshot was taken. -/
def c3heapNu : Heap ℚ := (c3init.map (fun p => p.1)).getD ⟨[]⟩

/-- The condition heap right after the snapshot was taken. -/
def c3heapC : Heap (Condition ℚ) := (c3init.map (fun p => p.2.1)).getD ⟨[]⟩

/-- The snapshot constructed by `c3init`. -/
def c3sol : SolutionRef := (c3init.map (fun p => p.2.2)).getD ⟨none, none, []⟩

/-! ## Properties of the minibatch partition (claim C2) -/

theorem batchSlices_pos (N B start : Nat) (h1 : start < N) (hB : 0 < B) :
    batchSlices N B start
      = (start, min (start + B) N) :: batchSlices N B (start + B) := by
  rw [batchSlices]
  simp [h1, hB]

theorem batchSlices_neg (N B start : Nat) (h : ¬(start < N ∧ 0 < B)) :
    batchSlices N B start = [] := by
  rw [batchSlices]
  simp only [dif_neg h]

/-- Induction following the recursion of `batchSlices`. -/
theorem batchSlices_rec_prop (N B : Nat) (P : Nat → Prop)
    (hpos : ∀ start, start < N → 0 < B → P (start + B) → P start)
    (hneg : ∀ start, ¬(start < N ∧ 0 < B) → P start) : ∀ start, P start := by
  have key : ∀ d start, N - start = d → P start := by
    intro d
    induction d using Nat.strong_induction_on with
    | _ d ih =>
      intro start hd
      by_cases h : start < N ∧ 0 < B
      · exact hpos start h.1 h.2 (ih (N - (start + B)) (by omega) (start + B) rfl)
      · exact hneg start h
  intro start
  exact key (N - start) start rfl

theorem batchSlices_sizes_sum (N B : Nat) (hB : 0 < B) :
    ∀ start, ((batchSlices N B start).map (fun p => p.2 - p.1)).sum
      = N - start := by
  refine batchSlices_rec_prop N B _ ?_ ?_
  · intro start h1 h2 ih
    rw [batchSlices_pos N B start h1 h2]
    simp only [List.map_cons, List.sum_cons, ih]
    omega
  · intro start h
    rw [batchSlices_neg N B start h]
    simp only [List.map_nil, List.sum_nil]
    omega

theorem batchSlices_length (N B : Nat) (hB : 0 < B) :
    ∀ start, (batchSlices N B start).length = (N - start + B - 1) / B := by
  refine batchSlices_rec_prop N B _ ?_ ?_
  · intro start h1 h2 ih
    rw [batchSlices_pos N B start h1 h2, List.length_cons, ih]
    have hd : 0 < N - start := by omega
    have he : N - start + B - 1 = (N - start - 1) + B := by omega
    rw [he, Nat.add_div_right _ h2]
    by_cases hc : N - start ≤ B
    · have h2a : N - (start + B) = 0 := by omega
      have h3 : N - start - 1 < B := by omega
      rw [h2a, Nat.div_eq_of_lt h3, Nat.div_eq_of_lt (by omega)]
    · have h2a : N - (start + B) + B - 1 = (N - start - 1 - B) + B := by omega
      rw [h2a, Nat.add_div_right _ h2]
      have h3 : N - start - 1 = (N - start - 1 - B) + B := by omega
      rw [h3, Nat.add_div_right _ h2]
      simp [Nat.add_sub_cancel]
  · intro start h
    rw [batchSlices_neg N B start h]
    have he : N - start = 0 := by omega
    rw [List.length_nil, he]
    simp [Nat.div_eq_of_lt, hB]

theorem batchSlices_mem_bounds (N B : Nat) :
    ∀ start, ∀ p ∈ batchSlices N B start,
      start ≤ p.1 ∧ p.1 < p.2 ∧ p.2 ≤ N ∧ p.2 ≤ p.1 + B := by
  refine batchSlices_rec_prop N B _ ?_ ?_
  · intro start h1 h2 ih p hp
    rw [batchSlices_pos N B start h1 h2] at hp
    rcases List.mem_cons.mp hp with h | h
    · subst h
      refine ⟨?_, ?_, ?_, ?_⟩
      · simp
      · simp
        omega
      · simp
      · simp
    · obtain ⟨a, b, c, d⟩ := ih p h
      exact ⟨by omega, b, c, d⟩
  · intro start h p hp
    rw [batchSlices_neg N B start h] at hp
    simp at hp

theorem batchSlices_dropLast_sizes (N B : Nat) :
    ∀ start, ∀ p ∈ (batchSlices N B start).dropLast, p.2 - p.1 = B := by
  refine batchSlices_rec_prop N B _ ?_ ?_
  · intro start h1 h2 ih p hp
    rw [batchSlices_pos N B start h1 h2] at hp
    by_cases hrest : start + B < N
    · rw [batchSlices_pos N B (start + B) hrest h2, List.dropLast_cons₂] at hp
      rcases List.mem_cons.mp hp with h | h
      · subst h
        simp
        omega
      · apply ih p
        rw [batchSlices_pos N B (start + B) hrest h2]
        exact h
    · rw [batchSlices_neg N B (start + B) (by omega)] at hp
      simp at hp
  · intro start h p hp
    rw [batchSlices_neg N B start h] at hp
    simp at hp

theorem batchSlices_flatten (N B : Nat) (hB : 0 < B) (idx : List Nat)
    (hidx : idx.length = N) :
    ∀ start, ((batchSlices N B start).map
        (fun p => (idx.drop p.1).take (p.2 - p.1))).flatten = idx.drop start := by
  refine batchSlices_rec_prop N B _ ?_ ?_
  · intro start h1 h2 ih
    rw [batchSlices_pos N B start h1 h2]
    simp only [List.map_cons, List.flatten_cons, ih]
    have hlen : (idx.drop start).length = N - start := by
      simp [hidx]
    have hmin : min (start + B) N - start = min B ((idx.drop start).length) := by
      rw [hlen]
      omega
    rw [hmin]
    have htake : (idx.drop start).take (min B (idx.drop start).length)
        = (idx.drop start).take B :=
      List.take_eq_take.mpr (by omega)
    have hdd : idx.drop (start + B) = (idx.drop start).drop B := by
      rw [List.drop_drop, Nat.add_comm]
    rw [htake, hdd, List.take_append_drop]
  · intro start h
    rw [batchSlices_neg N B start h]
    have : idx.length ≤ start := by omega
    simp [List.drop_eq_nil_of_le this]

theorem trainBatchIndexLists_lengths (N B : Nat) (idx : List Nat)
    (hidx : idx.length = N) :
    (trainBatchIndexLists idx N B).map List.length
      = (batchSlices N B 0).map (fun p => p.2 - p.1) := by
  unfold trainBatchIndexLists
  rw [List.map_map]
  apply List.map_congr_left
  intro p hp
  obtain ⟨h0, h1, h2, h3⟩ := batchSlices_mem_bounds N B 0 p hp
  simp [List.length_take, hidx]
  omega

theorem foldl_bump_count {ν : Type} (l : List (List Nat)) (st : TrainState ν Nat) :
    (l.foldl
      (fun (s : TrainState ν Nat) (_ : List Nat) =>
        ⟨s.single_net, s.nets, s.opt + 1⟩) st).opt = st.opt + l.length := by
  induction l generalizing st with
  | nil => simp
  | cons b t ih =>
    simp only [List.foldl_cons, ih, List.length_cons]
    omega

/-- Claim C2: for every training-set size `N ≥ 1` and batch size `B ≥ 1`,
each epoch performs exactly `ceil(N / B)` optimizer steps (one per index
batch), and the index batches partition the (possibly shuffled) index
sequence into consecutive runs: their point counts sum to exactly `N`,
every batch except possibly the final one holds exactly `B` points, no
batch exceeds `B` or is empty, and concatenating them in order restores the
traversal sequence (nothing padded, nothing dropped). The last conjunct
instruments `runTrain` with a step-counting optimizer state to count the
optimizer steps the epoch performs. In Nat, `ceil(N / B) = (N + B - 1) / B
= N ⌈/⌉ B`. -/
theorem claim2_minibatch_partition {ν : Type} (N B : Nat) (idx : List Nat)
    (hN : 1 ≤ N) (hB : 1 ≤ B) (hidx : idx.length = N) :
    (trainBatchIndexLists idx N B).length = (N + B - 1) / B ∧
    (trainBatchIndexLists idx N B).length = N ⌈/⌉ B ∧
    ((trainBatchIndexLists idx N B).map List.length).sum = N ∧
    (trainBatchIndexLists idx N B).flatten = idx ∧
    (∀ b ∈ (trainBatchIndexLists idx N B).dropLast, b.length = B) ∧
    (∀ b ∈ trainBatchIndexLists idx N B, 0 < b.length ∧ b.length ≤ B) ∧
    (∀ (R : Resolved ν Nat) (epoch : Nat) (st : TrainState ν Nat),
      R.train_generator.size = N → R.batch_size = B →
      R.optimizer_update
        = (fun s _ => ⟨s.single_net, s.nets, s.opt + 1⟩) →
      (runTrain R epoch st).1.opt = st.opt + (N + B - 1) / B) := by
  have hlen : (trainBatchIndexLists idx N B).length = (N + B - 1) / B := by
    unfold trainBatchIndexLists
    rw [List.length_map, batchSlices_length N B hB 0]
    simp
  refine ⟨hlen, ?_, ?_, ?_, ?_, ?_, ?_⟩
  · rw [hlen, Nat.ceilDiv_eq_add_pred_div]
  · rw [trainBatchIndexLists_lengths N B idx hidx,
      batchSlices_sizes_sum N B hB 0]
    omega
  · have := batchSlices_flatten N B hB idx hidx 0
    unfold trainBatchIndexLists
    rw [this]
    simp
  · intro b hb
    unfold trainBatchIndexLists at hb
    rw [← List.map_dropLast, List.mem_map] at hb
    obtain ⟨p, hp, hpb⟩ := hb
    have hsz := batchSlices_dropLast_sizes N B 0 p hp
    have hmem : p ∈ batchSlices N B 0 := List.dropLast_subset _ hp
    obtain ⟨h0, h1, h2, h3⟩ := batchSlices_mem_bounds N B 0 p hmem
    subst hpb
    simp [List.length_take, hidx]
    omega
  · intro b hb
    unfold trainBatchIndexLists at hb
    rw [List.mem_map] at hb
    obtain ⟨p, hp, hpb⟩ := hb
    obtain ⟨h0, h1, h2, h3⟩ := batchSlices_mem_bounds N B 0 p hp
    subst hpb
    simp [List.length_take, hidx]
    omega
  · intro R epoch st hsize hbatch hupd
    unfold runTrain
    simp only [hsize, hbatch, hupd]
    rw [foldl_bump_count]
    congr 1
    by_cases hs : R.shuffle <;>
      simp [hs, List.length_map, batchSlices_length N B hB 0,
        trainBatchIndexLists]

/-! ## The per-epoch trace of the loop (claims C1, C4, C9) -/

/-- The training state entering epoch `k`. -/
def stateBefore (R : Resolved ν Ω) (k : Nat) : TrainState ν Ω :=
  (runEpochs R k).st

/-- The training state after the minibatch pass of epoch `k`; the recorded
losses and the best-checkpoint snapshot of that epoch are taken on it. -/
def stateAfterTrain (R : Resolved ν Ω) (k : Nat) : TrainState ν Ω :=
  (runTrain R k (stateBefore R k)).1

/-- The full-training-set loss recorded in epoch `k`. -/
def epochTrainLoss (R : Resolved ν Ω) (k : Nat) : ℚ :=
  (runTrain R k (stateBefore R k)).2.1

/-- The full-validation-set loss recorded in epoch `k`. -/
def epochValidLoss (R : Resolved ν Ω) (k : Nat) : ℚ :=
  (runValid R k (stateAfterTrain R k)).1

theorem History.lookup_appendAt_self (h : History) (k : HKey) (v : ℚ) :
    (h.appendAt k v).lookup k = (h.lookup k).map (fun l => l ++ [v]) := by
  induction h with
  | nil => rfl
  | cons e t ih =>
    obtain ⟨ek, ev⟩ := e
    by_cases he : ek = k
    · subst he
      simp only [History.appendAt, List.map_cons] at ih ⊢
      rw [if_pos trivial]
      simp [History.lookup, List.lookup]
    · have hbe : (k == ek) = false := beq_eq_false_iff_ne.mpr (Ne.symm he)
      simp only [History.appendAt, List.map_cons] at ih ⊢
      rw [if_neg he]
      simp only [History.lookup, List.lookup, hbe]
      exact ih

theorem History.lookup_appendAt_ne (h : History) (k k2 : HKey) (v : ℚ)
    (hk : k2 ≠ k) :
    (h.appendAt k2 v).lookup k = h.lookup k := by
  induction h with
  | nil => rfl
  | cons e t ih =>
    obtain ⟨ek, ev⟩ := e
    simp only [History.appendAt, List.map_cons] at ih ⊢
    by_cases he : ek = k2
    · subst he
      have hbe : (k == ek) = false :=
        beq_eq_false_iff_ne.mpr (fun hc => hk (hc.symm))
      rw [if_pos rfl]

      simp only [History.lookup, List.lookup, hbe]
      exact ih
    · rw [if_neg he]
      by_cases hke : k = ek
      · subst hke
        simp [History.lookup, List.lookup]
      · have hbe : (k == ek) = false := beq_eq_false_iff_ne.mpr hke
        simp only [History.lookup, List.lookup, hbe]
        exact ih

theorem lookup_appendTrainMetrics (h : History) (ms : List (String × ℚ))
    (k : HKey) (hk : ∀ n, k ≠ HKey.train_metric n) :
    (appendTrainMetrics h ms).lookup k = h.lookup k := by
  induction ms generalizing h with
  | nil => rfl
  | cons m t ih =>
    have hstep : appendTrainMetrics h (m :: t)
        = appendTrainMetrics (h.appendAt (HKey.train_metric m.1) m.2) t := rfl
    rw [hstep, ih, History.lookup_appendAt_ne]
    exact fun hc => hk m.1 hc.symm

theorem lookup_appendValidMetrics (h : History) (ms : List (String × ℚ))
    (k : HKey) (hk : ∀ n, k ≠ HKey.valid_metric n) :
    (appendValidMetrics h ms).lookup k = h.lookup k := by
  induction ms generalizing h with
  | nil => rfl
  | cons m t ih =>
    have hstep : appendValidMetrics h (m :: t)
        = appendValidMetrics (h.appendAt (HKey.valid_metric m.1) m.2) t := rfl
    rw [hstep, ih, History.lookup_appendAt_ne]
    exact fun hc => hk m.1 hc.symm

theorem runEpoch_history (R : Resolved ν Ω) (e : Nat) (s : LoopState ν Ω) :
    (runEpoch R e s).history
      = appendValidMetrics
          ((appendTrainMetrics
              (s.history.appendAt HKey.train_loss (runTrain R e s.st).2.1)
              (runTrain R e s.st).2.2).appendAt HKey.valid_loss
                (runValid R e (runTrain R e s.st).1).1)
          (runValid R e (runTrain R e s.st).1).2 := by
  unfold runEpoch
  dsimp only
  split
  · rfl
  · rfl

theorem runEpochs_lookup_train_loss (R : Resolved ν Ω) (E : Nat) :
    (runEpochs R E).history.lookup HKey.train_loss
      = some ((List.range E).map (epochTrainLoss R)) := by
  induction E with
  | zero =>
    simp [runEpochs, initLoopState, initHistory, History.lookup, List.lookup]
  | succ n ih =>
    have hstep : runEpochs R (n + 1) = runEpoch R n (runEpochs R n) := rfl
    rw [hstep, runEpoch_history,
      lookup_appendValidMetrics _ _ _ (fun m => by simp),
      History.lookup_appendAt_ne _ _ _ _ (by simp),
      lookup_appendTrainMetrics _ _ _ (fun m => by simp),
      History.lookup_appendAt_self, ih]
    simp [List.range_succ, epochTrainLoss, stateBefore]

theorem runEpochs_lookup_valid_loss (R : Resolved ν Ω) (E : Nat) :
    (runEpochs R E).history.lookup HKey.valid_loss
      = some ((List.range E).map (epochValidLoss R)) := by
  induction E with
  | zero =>
    simp only [runEpochs, initLoopState, initHistory, List.range_zero,
      List.map_nil]
    rfl
  | succ n ih =>
    have hstep : runEpochs R (n + 1) = runEpoch R n (runEpochs R n) := rfl
    rw [hstep, runEpoch_history,
      lookup_appendValidMetrics _ _ _ (fun m => by simp),
      History.lookup_appendAt_self,
      lookup_appendTrainMetrics _ _ _ (fun m => by simp),
      History.lookup_appendAt_ne _ _ _ _ (by simp), ih]
    simp [List.range_succ, epochValidLoss, stateAfterTrain, stateBefore]

theorem resolveConfig_ok_fields (C : Collab ν Ω) (a : SolveSystemArgs ν Ω)
    (R : Resolved ν Ω) (h : resolveConfig C a = Except.ok R) :
    R.max_epochs = a.max_epochs ∧ R.return_best = a.return_best ∧
    R.batch_size = a.batch_size ∧ R.return_internal = a.return_internal ∧
    R.shuffle = a.shuffle := by
  unfold resolveConfig at h
  dsimp only at h
  split at h
  · cases h
  · split at h
    · cases h
    · cases h
    · injection h with h
      subst h
      exact ⟨rfl, rfl, rfl, rfl, rfl⟩

/-- Claim C1: for every run of `solve_system` with `max_epochs = E ≥ 0`
that completes without error, the returned history maps `train_loss` and
`valid_loss` each to a list of exactly `E` scalars, whose `i`-th entry is
the full-training-set (resp. full-validation-set) loss recorded in epoch
`i` (`epochTrainLoss` / `epochValidLoss`, the losses the `train` and
`valid` subroutines compute over the whole sets at epoch `i` of the run),
appended in epoch order. -/
theorem claim1_history_losses (C : Collab ν Ω) (a : SolveSystemArgs ν Ω)
    (R : Resolved ν Ω) (h : resolveConfig C a = Except.ok R) :
    solve_system C a = Except.ok (finishRun R) ∧
    (finishRun R).history.lookup HKey.train_loss
      = some ((List.range a.max_epochs).map (epochTrainLoss R)) ∧
    (finishRun R).history.lookup HKey.valid_loss
      = some ((List.range a.max_epochs).map (epochValidLoss R)) ∧
    (∀ l, (finishRun R).history.lookup HKey.train_loss = some l →
      l.length = a.max_epochs) ∧
    (∀ l, (finishRun R).history.lookup HKey.valid_loss = some l →
      l.length = a.max_epochs) := by
  obtain ⟨hm, -, -, -, -⟩ := resolveConfig_ok_fields C a R h
  have hfh : (finishRun R).history = (runEpochs R R.max_epochs).history := by
    unfold finishRun
    dsimp only
  have htr : (finishRun R).history.lookup HKey.train_loss
      = some ((List.range a.max_epochs).map (epochTrainLoss R)) := by
    rw [hfh, runEpochs_lookup_train_loss, hm]
  have hva : (finishRun R).history.lookup HKey.valid_loss
      = some ((List.range a.max_epochs).map (epochValidLoss R)) := by
    rw [hfh, runEpochs_lookup_valid_loss, hm]
  refine ⟨?_, htr, hva, ?_, ?_⟩
  · unfold solve_system
    rw [h]
    rfl
  · intro l hl
    rw [htr] at hl
    injection hl with hl
    rw [← hl]
    simp
  · intro l hl
    rw [hva] at hl
    injection hl with hl
    rw [← hl]
    simp

/-- Claim C9: when `return_best` is true and `max_epochs` is 0 the epoch
loop body never runs, so `solve_system` returns the Python value `None` in
place of a `Solution`: the best-checkpoint snapshot is initialized to
`None` and replaced only inside the loop. -/
theorem claim9_return_best_no_epochs (C : Collab ν Ω) (a : SolveSystemArgs ν Ω)
    (R : Resolved ν Ω) (h : resolveConfig C a = Except.ok R)
    (hb : a.return_best = true) (he : a.max_epochs = 0) :
    solve_system C a = Except.ok (finishRun R) ∧
    (finishRun R).solution = none := by
  obtain ⟨hm, hrb, -, -, -⟩ := resolveConfig_ok_fields C a R h
  constructor
  · unfold solve_system
    rw [h]
    rfl
  · unfold finishRun
    dsimp only
    rw [hm, he, hrb, hb]
    rfl

/-- Claim C4: the best-checkpoint state starts with minimum validation
loss `+infinity` (`⊤`) and no snapshot; it is replaced by a fresh snapshot
of the current network configuration and conditions exactly in those
epochs whose validation loss is strictly below the minimum seen so far
(when tracking is enabled); after the fixed number of epochs the result is
the best-checkpoint `Solution` when `return_best` is set, and a `Solution`
freshly constructed from the final-epoch networks otherwise. -/
theorem claim4_best_checkpoint (C : Collab ν Ω) (a : SolveSystemArgs ν Ω)
    (R : Resolved ν Ω) (h : resolveConfig C a = Except.ok R) :
    (runEpochs R 0).valid_loss_epoch_min = ⊤ ∧
    (runEpochs R 0).solution_min = none ∧
    (∀ k,
      ((R.return_best = true ∧
          ((epochValidLoss R k : WithTop ℚ)
            < (runEpochs R k).valid_loss_epoch_min)) →
        (runEpochs R (k + 1)).valid_loss_epoch_min
            = (epochValidLoss R k : WithTop ℚ) ∧
        (runEpochs R (k + 1)).solution_min
            = some ⟨(stateAfterTrain R k).single_net,
                (stateAfterTrain R k).nets, R.conditions⟩) ∧
      (¬(R.return_best = true ∧
          (epochValidLoss R k : WithTop ℚ)
            < (runEpochs R k).valid_loss_epoch_min) →
        (runEpochs R (k + 1)).valid_loss_epoch_min
            = (runEpochs R k).valid_loss_epoch_min ∧
        (runEpochs R (k + 1)).solution_min = (runEpochs R k).solution_min)) ∧
    (a.return_best = true →
      solve_system C a = Except.ok (finishRun R) ∧
      (finishRun R).solution = (runEpochs R R.max_epochs).solution_min) ∧
    (a.return_best = false →
      (finishRun R).solution
        = some ⟨(runEpochs R R.max_epochs).st.single_net,
            (runEpochs R R.max_epochs).st.nets, R.conditions⟩) := by
  obtain ⟨-, hrb, -, -, -⟩ := resolveConfig_ok_fields C a R h
  refine ⟨rfl, rfl, ?_, ?_, ?_⟩
  · intro k
    have hstep : runEpochs R (k + 1) = runEpoch R k (runEpochs R k) := rfl
    have hev : (runValid R k (runTrain R k (runEpochs R k).st).1).1
        = epochValidLoss R k := rfl
    constructor
    · intro hcond
      rw [hstep]
      unfold runEpoch
      dsimp only
      rw [hev, if_pos hcond]
      exact ⟨rfl, rfl⟩
    · intro hcond
      rw [hstep]
      unfold runEpoch
      dsimp only
      rw [hev, if_neg hcond]
      exact ⟨rfl, rfl⟩
  · intro hb
    constructor
    · unfold solve_system
      rw [h]
      rfl
    · unfold finishRun
      dsimp only
      rw [hrb, hb]
      rfl
  · intro hb
    unfold finishRun
    dsimp only
    rw [hrb, hb]
    rfl

/-- Claim C6: supplying both a single shared network and a (non-empty)
per-variable network list raises the configuration-conflict error before
any epoch executes: `solve_system` short-circuits with the error, so no
optimizer step occurs and no history is produced at all. An empty supplied
list is falsy in Python and does not trigger the check. -/
theorem claim6_net_conflict (C : Collab ν Ω) (a : SolveSystemArgs ν Ω)
    (n m : ν) (l : List ν) (h1 : a.single_net = some n)
    (h2 : a.nets = some (m :: l)) :
    resolveConfig C a = Except.error SolveError.netConflict ∧
    solve_system C a = Except.error SolveError.netConflict := by
  have hc : (truthyOpt a.single_net && truthyList a.nets) = true := by
    rw [h1, h2]
    rfl
  have hr : resolveConfig C a = Except.error SolveError.netConflict := by
    unfold resolveConfig
    rw [if_pos hc]
  refine ⟨hr, ?_⟩
  unfold solve_system
  rw [hr]
  rfl

/-- Witness for claim C6 at a concrete conflicting configuration. -/
theorem claim6_net_conflict_witness :
    solve_system unitCollab cargs6 = Except.error SolveError.netConflict :=
  (claim6_net_conflict unitCollab cargs6 () () [] rfl rfl).2

/-- Counterexample to claim C7 as stated: the missing-domain-bounds error
is not raised exactly when training points are missing and the bounds are
incomplete — here a training generator is supplied, yet the error is
raised because the validation generator is absent and `t_min` is `None`. -/
theorem claim7_counterexample :
    cargs7.train_generator = some cgen ∧
    solve_system unitCollab cargs7 = Except.error SolveError.missingBounds :=
  ⟨rfl, rfl⟩

/-- Claim C7, amended: in a configuration that does not trip the
net-conflict check, `solve_system` raises the missing-domain-bounds error
(before any training starts) exactly when the training generator or the
validation generator is omitted while `t_min` and `t_max` are not both
supplied; the bounds are required only if one of the generators is
omitted. -/
theorem claim7_missing_bounds_iff (C : Collab ν Ω) (a : SolveSystemArgs ν Ω)
    (hnc : ¬(truthyOpt a.single_net && truthyList a.nets) = true) :
    (solve_system C a = Except.error SolveError.missingBounds
      ↔ ((a.train_generator = none ∨ a.valid_generator = none) ∧
          (a.t_min = none ∨ a.t_max = none))) := by
  unfold solve_system resolveConfig
  rw [if_neg hnc]
  dsimp only
  rcases htg : a.train_generator with _ | g1 <;>
    rcases hvg : a.valid_generator with _ | g2 <;>
      rcases hmin : a.t_min with _ | lo <;>
        rcases hmax : a.t_max with _ | hi <;>
          simp [Except.map]

/-- Witness for the amended claim C7: with both generators omitted and
`t_min` absent, the error is raised. -/
theorem claim7_missing_bounds_witness :
    solve_system unitCollab
      { ode_system := fun us _ => us
        conditions := [unitCondition]
        t_min := none
        t_max := some 1 } = Except.error SolveError.missingBounds :=
  (claim7_missing_bounds_iff unitCollab _ (by decide)).mpr
    ⟨Or.inl rfl, Or.inl rfl⟩

/-- Claim C10: `solve(ode, condition, ...)` returns exactly the result of
`solve_system` called with the one-equation system
`lambda x, t: [ode(x, t)]`, the singleton condition list `[condition]`,
`nets = [net]` when a network is supplied and `None` otherwise, and every
remaining argument forwarded unchanged. -/
theorem claim10_solve_delegates (C : Collab ν Ω) (a : SolveArgs ν Ω) :
    solve C a = solve_system C
      { ode_system := wrapOde a.ode
        conditions := [a.condition]
        t_min := a.t_min
        t_max := a.t_max
        single_net := none
        nets := Option.map (fun n => [n]) a.net
        train_generator := a.train_generator
        shuffle := a.shuffle
        valid_generator := a.valid_generator
        optimizer := a.optimizer
        criterion := a.criterion
        additional_loss_term := a.additional_loss_term
        metrics := a.metrics
        batch_size := a.batch_size
        max_epochs := a.max_epochs
        monitor := a.monitor
        return_internal := a.return_internal
        return_best := a.return_best } := by
  cases hn : a.net <;> simp [solve, hn]

/-- Counterexample to claim C5 as stated: the source compares every
residual against `torch.zeros_like(ts)` — a zero vector shaped like the
points batch — not one shaped like the residual. With a residual of 2
elements over a 1-element batch and a criterion that inspects its target
size, the two formulations disagree. -/
theorem claim5_counterexample :
    calculate_loss ⟨[1, 1], [5]⟩ (some ()) none
        (fun _ _ => [⟨[2, 1], [0, 0]⟩]) [unitCondition]
        (fun _ b => (b.data.length : ℚ)) none
      ≠ calculate_loss_residual_shaped_zero ⟨[1, 1], [5]⟩ (some ()) none
        (fun _ _ => [⟨[2, 1], [0, 0]⟩]) [unitCondition]
        (fun _ b => (b.data.length : ℚ)) none := by
  simp [calculate_loss, calculate_loss_residual_shaped_zero, _trial_solution,
    Tensor.zeros_like, Tensor.numel, unitCondition, Condition.enforce]

/-- Claim C5, amended: for every batch, the loss is computed by evaluating
the equation system on the trial-solution values and the batch, applying
the criterion to each residual against a zero vector shaped like the
points batch `ts`, summing these scalars across equations, and adding the
extra penalty term (invoked with the same arguments as the equation
system) when one is configured. -/
theorem claim5_loss_formula (ts : Tensor) (net : Option ν)
    (nets : Option (List ν))
    (ode_system : List Tensor → Tensor → List Tensor)
    (conditions : List (Condition ν)) (criterion : Tensor → Tensor → ℚ)
    (additional_loss_term : Option (List Tensor → Tensor → ℚ)) :
    calculate_loss ts net nets ode_system conditions criterion
        additional_loss_term
      = calculate_loss_batch_shaped_zero ts net nets ode_system conditions
        criterion additional_loss_term := by
  unfold calculate_loss calculate_loss_batch_shaped_zero Tensor.zeros_like
  cases additional_loss_term <;> simp [Tensor.numel]

theorem mapM_eq_some_map {α β : Type} (f : α → Option β) (g : α → β)
    (l : List α) (h : ∀ x ∈ l, f x = some (g x)) :
    l.mapM f = some (l.map g) := by
  induction l with
  | nil => rfl
  | cons x t ih =>
    rw [List.mapM_cons, h x (by simp), ih (fun y hy => h y (by simp [hy]))]
    rfl

/-- Claim C8: for every constructed `Solution` and every 1-D or scalar
input, evaluation reshapes the input to a column batch, computes the trial
solution against the owned copies, and returns each dependent-variable
output reshaped back to the original shape of the input — provided every
enforced output carries the batch element count, as network outputs do. -/
theorem claim8_shape_law (sol : Solution ν) (ts : Tensor)
    (hshape : ts.shape = [ts.data.length]
      ∨ (ts.shape = [] ∧ ts.data.length = 1))
    (hnum : ∀ u ∈ _trial_solution sol.single_net sol.nets ts.reshapeCol
        sol.conditions, u.data.length = ts.data.length) :
    sol.callList ts "tf"
      = some ((_trial_solution sol.single_net sol.nets ts.reshapeCol
          sol.conditions).map (fun u => ⟨ts.shape, u.data⟩)) ∧
    (∀ us, sol.callList ts "tf" = some us → ∀ u ∈ us, u.shape = ts.shape) := by
  have hprod : ts.shape.prod = ts.data.length := by
    rcases hshape with h | ⟨h1, h2⟩
    · rw [h]
      simp
    · rw [h1, h2]
      simp
  have hmain : sol.callList ts "tf"
      = some ((_trial_solution sol.single_net sol.nets ts.reshapeCol
          sol.conditions).map (fun u => ⟨ts.shape, u.data⟩)) := by
    unfold Solution.callList
    rw [if_neg (by simp)]
    dsimp only
    apply mapM_eq_some_map
    intro u hu
    unfold Tensor.reshape
    rw [if_pos]
    rw [hprod]
    exact (hnum u hu).symm
  refine ⟨hmain, ?_⟩
  intro us hus u hu
  rw [hmain] at hus
  injection hus with hus
  subst hus
  obtain ⟨w, -, hw⟩ := List.mem_map.mp hu
  rw [← hw]

/-! ## Snapshot isolation through the object heap (claim C3) -/

theorem Heap.get_set_ne (h : Heap α) (a b : Nat) (v : α) (hab : a ≠ b) :
    (h.set a v).get b = h.get b := by
  unfold Heap.get Heap.set
  exact List.getElem?_set_ne hab

theorem Heap.copyList_addrs (as : List Nat) :
    ∀ (h h2 : Heap α) (as2 : List Nat), h.copyList as = some (h2, as2) →
      h.size ≤ h2.size ∧ ∀ a ∈ as2, h.size ≤ a := by
  induction as with
  | nil =>
    intro h h2 as2 hc
    simp only [Heap.copyList] at hc
    injection hc with hc
    have he1 : h = h2 := congrArg Prod.fst hc
    have he2 : ([] : List Nat) = as2 := congrArg Prod.snd hc
    subst he1
    rw [← he2]
    exact ⟨le_refl _, by simp⟩
  | cons a rest ih =>
    intro h h2 as2 hc
    simp only [Heap.copyList] at hc
    cases hget : h.get a with
    | none =>
      rw [hget] at hc
      simp at hc
    | some v =>
      rw [hget] at hc
      dsimp only at hc
      cases hrec : (h.alloc v).1.copyList rest with
      | none =>
        rw [hrec] at hc
        simp at hc
      | some q =>
        rw [hrec] at hc
        dsimp only at hc
        injection hc with hc
        have he1 : q.1 = h2 := congrArg Prod.fst hc
        have he2 : (h.alloc v).2 :: q.2 = as2 := congrArg Prod.snd hc
        obtain ⟨hs, ha⟩ := ih (h.alloc v).1 q.1 q.2 hrec
        have hsize : (h.alloc v).1.size = h.size + 1 := by
          simp [Heap.alloc, Heap.size]
        constructor
        · rw [← he1]
          omega
        · intro x hx
          rw [← he2] at hx
          rcases List.mem_cons.mp hx with h' | h'
          · subst h'
            simp [Heap.alloc, Heap.size]
          · have := ha x h'
            omega

theorem Heap.copyOpt_addrs (h : Heap α) (o : Option Nat) (h2 : Heap α)
    (o2 : Option Nat) (hc : h.copyOpt o = some (h2, o2)) :
    h.size ≤ h2.size ∧ ∀ a, o2 = some a → h.size ≤ a := by
  cases o with
  | none =>
    simp only [Heap.copyOpt] at hc
    injection hc with hc
    have he1 : h = h2 := congrArg Prod.fst hc
    have he2 : (none : Option Nat) = o2 := congrArg Prod.snd hc
    subst he1
    exact ⟨le_refl _, fun a ha => by rw [← he2] at ha; cases ha⟩
  | some b =>
    simp only [Heap.copyOpt, Heap.copyOne] at hc
    cases hget : h.get b with
    | none =>
      rw [hget] at hc
      simp at hc
    | some v =>
      rw [hget] at hc
      dsimp only [Option.map] at hc
      injection hc with hc
      have he1 : (h.alloc v).1 = h2 := congrArg Prod.fst hc
      have he2 : some (h.alloc v).2 = o2 := congrArg Prod.snd hc
      constructor
      · rw [← he1]
        simp [Heap.alloc, Heap.size]
      · intro a ha
        rw [← he2] at ha
        injection ha with ha
        subst ha
        simp [Heap.alloc, Heap.size]

theorem Heap.copyOptList_addrs (h : Heap α) (o : Option (List Nat))
    (h2 : Heap α) (o2 : Option (List Nat))
    (hc : h.copyOptList o = some (h2, o2)) :
    h.size ≤ h2.size ∧ ∀ l, o2 = some l → ∀ a ∈ l, h.size ≤ a := by
  cases o with
  | none =>
    simp only [Heap.copyOptList] at hc
    injection hc with hc
    have he1 : h = h2 := congrArg Prod.fst hc
    have he2 : (none : Option (List Nat)) = o2 := congrArg Prod.snd hc
    subst he1
    exact ⟨le_refl _, fun l hl => by rw [← he2] at hl; cases hl⟩
  | some l =>
    simp only [Heap.copyOptList] at hc
    cases hcl : h.copyList l with
    | none =>
      rw [hcl] at hc
      simp at hc
    | some p =>
      rw [hcl] at hc
      dsimp only [Option.map] at hc
      injection hc with hc
      have he1 : p.1 = h2 := congrArg Prod.fst hc
      have he2 : some p.2 = o2 := congrArg Prod.snd hc
      obtain ⟨hs, ha⟩ := Heap.copyList_addrs l h p.1 p.2 hcl
      constructor
      · rw [← he1]
        exact hs
      · intro l2 hl2 a hal
        rw [← he2] at hl2
        injection hl2 with hl2
        subst hl2
        exact ha a hal

theorem mapM_get_congr (h1 h2 : Heap α) (l : List Nat)
    (hag : ∀ a ∈ l, h2.get a = h1.get a) :
    l.mapM h2.get = l.mapM h1.get := by
  induction l with
  | nil => rfl
  | cons a t ih =>
    rw [List.mapM_cons, List.mapM_cons, hag a (by simp),
      ih (fun b hb => hag b (by simp [hb]))]

theorem SolutionRef.fetch_congr (hν1 hν2 : Heap ν)
    (hc1 hc2 : Heap (Condition ν)) (sol : SolutionRef)
    (hn : ∀ a, sol.single_net = some a → hν2.get a = hν1.get a)
    (hm : ∀ l, sol.nets = some l → ∀ a ∈ l, hν2.get a = hν1.get a)
    (hcc : ∀ a ∈ sol.conditions, hc2.get a = hc1.get a) :
    sol.fetch hν2 hc2 = sol.fetch hν1 hc1 := by
  have e1 : SolutionRef.fetchSingle hν2 sol = SolutionRef.fetchSingle hν1 sol := by
    unfold SolutionRef.fetchSingle
    cases hsn : sol.single_net with
    | none => rfl
    | some a =>
      dsimp only
      rw [hn a hsn]
  have e2 : SolutionRef.fetchNets hν2 sol = SolutionRef.fetchNets hν1 sol := by
    unfold SolutionRef.fetchNets
    cases hns : sol.nets with
    | none => rfl
    | some l =>
      dsimp only
      rw [mapM_get_congr hν1 hν2 l (hm l hns)]
  have e3 : sol.conditions.mapM hc2.get = sol.conditions.mapM hc1.get :=
    mapM_get_congr hc1 hc2 sol.conditions hcc
  unfold SolutionRef.fetch
  rw [e1, e2, e3]

/-- Claim C3: once a `Solution` has been constructed, mutating the objects
that existed before the construction — in particular further optimizer
steps on the original networks, or changes to the original conditions —
leaves every value the snapshot evaluates to unchanged, because
`Solution.__init__` deep-copied `single_net`, `nets` and `conditions` into
fresh cells. Formally: any heaps that agree with the post-construction
heaps on all fresh addresses (everything at or above the pre-construction
sizes) make the snapshot evaluate identically on every input batch. -/
theorem claim3_solution_isolation (hν : Heap ν) (hc : Heap (Condition ν))
    (sn : Option Nat) (nets : Option (List Nat)) (conds : List Nat)
    (hν1 : Heap ν) (hc1 : Heap (Condition ν)) (sol : SolutionRef)
    (hinit : Solution.initRef hν hc sn nets conds = some (hν1, hc1, sol))
    (hν2 : Heap ν) (hc2 : Heap (Condition ν))
    (hagν : ∀ a, hν.size ≤ a → hν2.get a = hν1.get a)
    (hagc : ∀ a, hc.size ≤ a → hc2.get a = hc1.get a)
    (ts : Tensor) (as_type : String) :
    SolutionRef.call hν2 hc2 sol ts as_type
      = SolutionRef.call hν1 hc1 sol ts as_type := by
  simp only [Solution.initRef] at hinit
  cases hp1 : hν.copyOpt sn with
  | none =>
    rw [hp1] at hinit
    simp at hinit
  | some p1 =>
    rw [hp1] at hinit
    dsimp only at hinit
    cases hp2 : p1.1.copyOptList nets with
    | none =>
      rw [hp2] at hinit
      simp at hinit
    | some p2 =>
      rw [hp2] at hinit
      dsimp only at hinit
      cases hp3 : hc.copyList conds with
      | none =>
        rw [hp3] at hinit
        simp at hinit
      | some p3 =>
        rw [hp3] at hinit
        dsimp only at hinit
        injection hinit with hinit
        have heC : (⟨p1.2, p2.2, p3.2⟩ : SolutionRef) = sol :=
          congrArg (fun x => x.2.2) hinit
        obtain ⟨hs1, ha1⟩ := Heap.copyOpt_addrs hν sn p1.1 p1.2 hp1
        obtain ⟨hs2, ha2⟩ := Heap.copyOptList_addrs p1.1 nets p2.1 p2.2 hp2
        obtain ⟨hs3, ha3⟩ := Heap.copyList_addrs conds hc p3.1 p3.2 hp3
        have hn : ∀ a, sol.single_net = some a → hν2.get a = hν1.get a := by
          intro a ha
          apply hagν
          rw [← heC] at ha
          exact ha1 a ha
        have hm : ∀ l, sol.nets = some l → ∀ a ∈ l, hν2.get a = hν1.get a := by
          intro l hl a hal
          apply hagν
          rw [← heC] at hl
          have := ha2 l hl a hal
          omega
        have hcc : ∀ a ∈ sol.conditions, hc2.get a = hc1.get a := by
          intro a hal
          apply hagc
          rw [← heC] at hal
          exact ha3 a hal
        unfold SolutionRef.call
        rw [SolutionRef.fetch_congr hν1 hν2 hc1 hc2 sol hn hm hcc]

/-! ## Witnesses at concrete inputs -/

/-- Witness for claim C1: the concrete two-epoch run records exactly the
two per-epoch losses of each series, in epoch order. -/
theorem claim1_history_losses_witness :
    (finishRun c1R).history.lookup HKey.train_loss
      = some ((List.range 2).map (epochTrainLoss c1R)) ∧
    (finishRun c1R).history.lookup HKey.valid_loss
      = some ((List.range 2).map (epochValidLoss c1R)) :=
  ⟨(claim1_history_losses unitCollab cargs1 c1R rfl).2.1,
   (claim1_history_losses unitCollab cargs1 c1R rfl).2.2.1⟩

/-- Witness for claim C2 at `N = 5`, `B = 2`: three batches that
concatenate back to the traversal order. -/
theorem claim2_minibatch_partition_witness :
    (trainBatchIndexLists (List.range 5) 5 2).length = (5 + 2 - 1) / 2 ∧
    (trainBatchIndexLists (List.range 5) 5 2).flatten = List.range 5 :=
  ⟨(@claim2_minibatch_partition Unit 5 2 (List.range 5) (by decide) (by decide)
      (by decide)).1,
   (@claim2_minibatch_partition Unit 5 2 (List.range 5) (by decide) (by decide)
      (by decide)).2.2.2.1⟩

/-- Witness for claim C3: overwriting the live network (address 0, a
pre-snapshot object) does not change what the snapshot evaluates to. -/
theorem claim3_solution_isolation_witness :
    SolutionRef.call (c3heapNu.set 0 999) c3heapC c3sol ⟨[2], [1, 2]⟩ "tf"
      = SolutionRef.call c3heapNu c3heapC c3sol ⟨[2], [1, 2]⟩ "tf" :=
  claim3_solution_isolation c3heapNu0 c3heapC0 (some 0) none [0]
    c3heapNu c3heapC c3sol rfl (c3heapNu.set 0 999) c3heapC
    (fun a ha => Heap.get_set_ne c3heapNu 0 a 999
      (by have h1 : (1 : Nat) ≤ a := ha; omega))
    (fun a _ => rfl) ⟨[2], [1, 2]⟩ "tf"

/-- Witness for claim C4: on the concrete best-tracking run the
best-checkpoint state starts at `⊤` with no snapshot, and the returned
solution is the final best-checkpoint snapshot. -/
theorem claim4_best_checkpoint_witness :
    (runEpochs c4R 0).valid_loss_epoch_min = ⊤ ∧
    (runEpochs c4R 0).solution_min = none ∧
    (finishRun c4R).solution = (runEpochs c4R c4R.max_epochs).solution_min :=
  ⟨(claim4_best_checkpoint unitCollab cargs4 c4R rfl).1,
   (claim4_best_checkpoint unitCollab cargs4 c4R rfl).2.1,
   ((claim4_best_checkpoint unitCollab cargs4 c4R rfl).2.2.2.1 rfl).2⟩

/-- Witness for claim C8: evaluating a concrete snapshot on a 1-D batch of
three points returns outputs reshaped back to the input shape. -/
theorem claim8_shape_law_witness :
    csol8.callList ⟨[3], [1, 2, 3]⟩ "tf"
      = some ((_trial_solution csol8.single_net csol8.nets
          (Tensor.reshapeCol ⟨[3], [1, 2, 3]⟩) csol8.conditions).map
            (fun u => ⟨[3], u.data⟩)) :=
  (claim8_shape_law csol8 ⟨[3], [1, 2, 3]⟩ (Or.inl rfl) (by decide)).1

/-- Witness for claim C9: the concrete zero-epoch best-tracking run
returns `None`. -/
theorem claim9_return_best_no_epochs_witness :
    (finishRun c9R).solution = none :=
  (claim9_return_best_no_epochs unitCollab cargs9 c9R rfl rfl rfl).2
